import Mathlib

/-!
Verification of the pgdoc schema-extraction pipeline.

The Go program reads four kinds of catalog query results from Postgres
(table list, per-table column list, per-table constraint list, enum
catalog) and assembles them into a `Schema` value.  We embed the pure
assembly logic: the `DB` structure below holds the rows the four catalog
queries would return, and each Go function becomes a Lean function over
it.  Query (I/O) errors are outside the model; the validation logic of
`getFullSchema` is embedded exactly.
-/

namespace Pgdoc

/-- Go struct ForeignKeyDefinition. -/
structure ForeignKeyDefinition where
  Column : String
  Name : String
  RefTable : String
  RefColumn : String
deriving DecidableEq

/-- Go struct ColumnDefinition. -/
structure ColumnDefinition where
  Name : String
  DataType : String
  CustomType : Bool
  Description : String
  IsNullable : Bool
deriving DecidableEq

/-- Go struct Table. -/
structure Table where
  Name : String
  Description : String
  KeyColumns : List ColumnDefinition
  Columns : List ColumnDefinition
  ForeignKeys : List ForeignKeyDefinition
deriving DecidableEq

/-- Go struct Enum. -/
structure Enum where
  Name : String
  Description : String
  Values : List String
deriving DecidableEq

/-- Go struct Schema. -/
structure Schema where
  Tables : List Table
  Enums : List Enum
deriving DecidableEq

/-- Go struct ColumnIdentity: a (table, column) pair inside a constraint payload. -/
structure ColumnIdentity where
  Table : String
  Column : String
deriving DecidableEq

/-- Go struct ConstraintDefinition (intermediate shape decoded from the constraint query). -/
structure ConstraintDefinition where
  LocalColumns : List ColumnIdentity
  ForeignColumns : List ColumnIdentity
  ConstraintName : String
  ConstraintType : String
deriving DecidableEq

/-- One row of the column query before the SQL CASE formats its type: the
information_schema fields the query reads.  The numeric fields are
`Option Nat` because they are NULL for types they do not apply to. -/
structure RawColumn where
  column_name : String
  data_type : String
  udt_name : String
  numeric_precision : Option Nat
  numeric_scale : Option Nat
  character_maximum_length : Option Nat
  is_nullable : String
  description : String
deriving DecidableEq

/-- The results of the four catalog queries, as the Go code would receive
them: table rows are (relname, description), enum rows are
(typname, aggregated labels, description). -/
structure DB where
  tableRows : List (String × String)
  rawColumns : String → List RawColumn
  constraints : String → List ConstraintDefinition
  enumRows : List (String × String × String)

/-- Postgres CONCAT renders a NULL argument as the empty string. -/
def concatArg : Option Nat → String
  | none => ""
  | some n => toString n

/-- The SQL CASE on data_type inside getColumns. -/
def formatDataType (r : RawColumn) : String :=
  if r.data_type = "USER-DEFINED" then r.udt_name
  else if r.data_type = "numeric" then
    "Number(" ++ concatArg r.numeric_precision ++ "," ++ concatArg r.numeric_scale ++ ")"
  else if r.data_type = "character" then
    "Char(" ++ concatArg r.character_maximum_length ++ ")"
  else if r.data_type = "timestamp with time zone" then "timestamp"
  else r.data_type

/-- One scanned row of the column query of getColumns: the CASE
expressions computing is_nullable, custom_type and data_type. -/
def mkColumnDefinition (r : RawColumn) : ColumnDefinition :=
  { Name := r.column_name
    DataType := formatDataType r
    CustomType := r.data_type == "USER-DEFINED"
    Description := r.description
    IsNullable := !(r.is_nullable == "NO") }

/-- Go getColumns: the column rows for one table, in ordinal order,
each formatted by the SQL CASE expressions. -/
def getColumns (db : DB) (tableName : String) : List ColumnDefinition :=
  (db.rawColumns tableName).map mkColumnDefinition

/-- Go getTableNames: keeps a table row unless some entry of the exclude
list is equal (exact string comparison) to its name; the row order is the
query's order. -/
def getTableNames (db : DB) (exclude : List String) : List Table :=
  (db.tableRows.filter (fun r => !(exclude.contains r.1))).map
    (fun r => { Name := r.1, Description := r.2,
                KeyColumns := [], Columns := [], ForeignKeys := [] })

/-- Go strings.Split with a one-character separator, on the List Char
view of a string. -/
def goSplit (sep : Char) (s : String) : List String :=
  (s.data.splitOn sep).map String.mk

/-- The SQL string_agg(e.enumlabel, sep ORDER BY e.enumsortorder) of the
enum query: the labels, already in declared sort order, joined by the
separator. -/
def stringAgg (sep : Char) (labels : List String) : String :=
  String.mk (List.intercalate [sep] (labels.map String.data))

/-- Go getEnums: one Enum per row, splitting the aggregated label string
back into the value sequence. -/
def getEnums (rows : List (String × String × String)) : List Enum :=
  rows.map (fun r => { Name := r.1, Description := r.2.2, Values := goSplit '|' r.2.1 })

/-- The errors getFullSchema can raise while classifying constraints,
named by the kinds the design gives them.  The two schema-inconsistency
forms carry the current table, the constraint name and the column's
owning table. -/
inductive AssembleError where
  | schemaInconsistencyPK (tableName constraintName columnTable : String)
  | validation (constraintName : String)
  | schemaInconsistencyFK (tableName constraintName columnTable : String)
  | unknownConstraint (constraintKind : String)
deriving DecidableEq

/-- Whether an error is one of the two schema-inconsistency forms. -/
def AssembleError.isSchemaInconsistency : AssembleError → Bool
  | .schemaInconsistencyPK _ _ _ => true
  | .schemaInconsistencyFK _ _ _ => true
  | _ => false

/-- The PRIMARY KEY branch of the constraint loop: every local column
must belong to the current table; the key column names are collected in
order. -/
def pkColumnNames (tableName constraintName : String) :
    List ColumnIdentity → Except AssembleError (List String)
  | [] => .ok []
  | column :: rest =>
    if column.Table ≠ tableName then
      .error (.schemaInconsistencyPK tableName constraintName column.Table)
    else
      match pkColumnNames tableName constraintName rest with
      | .error e => .error e
      | .ok names => .ok (column.Column :: names)

/-- The constraint loop of getFullSchema for one table: returns the set
of primary-key column names (as a list) and the foreign-key list in scan
order, or the first error raised. -/
def classifyConstraints (tableName : String) :
    List ConstraintDefinition → Except AssembleError (List String × List ForeignKeyDefinition)
  | [] => .ok ([], [])
  | constraint :: rest =>
    if constraint.ConstraintType = "PRIMARY KEY" then
      match pkColumnNames tableName constraint.ConstraintName constraint.LocalColumns with
      | .error e => .error e
      | .ok names =>
        match classifyConstraints tableName rest with
        | .error e => .error e
        | .ok (pk, fk) => .ok (names ++ pk, fk)
    else if constraint.ConstraintType = "FOREIGN KEY" then
      match constraint.LocalColumns, constraint.ForeignColumns with
      | [localCol], [foreignCol] =>
        if localCol.Table ≠ tableName then
          .error (.schemaInconsistencyFK tableName constraint.ConstraintName localCol.Table)
        else
          match classifyConstraints tableName rest with
          | .error e => .error e
          | .ok (pk, fk) =>
            .ok (pk, { Column := localCol.Column, Name := constraint.ConstraintName,
                       RefTable := foreignCol.Table, RefColumn := foreignCol.Column } :: fk)
      | _, _ => .error (.validation constraint.ConstraintName)
    else .error (.unknownConstraint constraint.ConstraintType)

/-- The single-pass partition loop of getFullSchema: a column goes to the
key list when its name is in the primary-key set, otherwise to the rest
list, keeping the scan order. -/
def partitionColumns (pk : List String) :
    List ColumnDefinition → List ColumnDefinition × List ColumnDefinition
  | [] => ([], [])
  | col :: rest =>
    let p := partitionColumns pk rest
    if pk.contains col.Name then (col :: p.1, p.2) else (p.1, col :: p.2)

/-- The per-table body of getFullSchema's loop: classify the constraints,
partition the columns, attach the results to the table. -/
def processTable (table : Table) (cols : List ColumnDefinition)
    (constraints : List ConstraintDefinition) : Except AssembleError Table :=
  match classifyConstraints table.Name constraints with
  | .error e => .error e
  | .ok (pkCols, fkCols) =>
    let p := partitionColumns pkCols cols
    .ok { table with KeyColumns := p.1, Columns := p.2, ForeignKeys := fkCols }

/-- The loop of getFullSchema over the table list: each table is
processed with its own column and constraint query results; the first
error aborts the run. -/
def assembleTables (db : DB) : List Table → Except AssembleError (List Table)
  | [] => .ok []
  | table :: rest =>
    match processTable table (getColumns db table.Name) (db.constraints table.Name) with
    | .error e => .error e
    | .ok t =>
      match assembleTables db rest with
      | .error e => .error e
      | .ok ts => .ok (t :: ts)

/-- Go getFullSchema: list the tables (honouring the exclude list),
assemble each, then fetch the enums and build the Schema. -/
def getFullSchema (db : DB) (exclude : List String) : Except AssembleError Schema :=
  match assembleTables db (getTableNames db exclude) with
  | .error e => .error e
  | .ok tables => .ok { Tables := tables, Enums := getEnums db.enumRows }

/-- The ForeignKeyDefinition a single well-formed FOREIGN KEY constraint
contributes (none for any other constraint). -/
def fkDefOf (c : ConstraintDefinition) : Option ForeignKeyDefinition :=
  if c.ConstraintType = "FOREIGN KEY" then
    match c.LocalColumns, c.ForeignColumns with
    | [localCol], [foreignCol] =>
      some { Column := localCol.Column, Name := c.ConstraintName,
             RefTable := foreignCol.Table, RefColumn := foreignCol.Column }
    | _, _ => none
  else none

/-- The primary-key column names a constraint list yields, in scan order. -/
def pkNames (cs : List ConstraintDefinition) : List String :=
  cs.flatMap (fun c =>
    if c.ConstraintType = "PRIMARY KEY" then c.LocalColumns.map (fun col => col.Column) else [])

/-- A constraint passes every check of the classifier for the given table. -/
def constraintOK (tableName : String) (c : ConstraintDefinition) : Bool :=
  if c.ConstraintType = "PRIMARY KEY" then
    c.LocalColumns.all (fun col => col.Table == tableName)
  else if c.ConstraintType = "FOREIGN KEY" then
    match c.LocalColumns, c.ForeignColumns with
    | [localCol], [_] => localCol.Table == tableName
    | _, _ => false
  else false

/-! ### Concrete catalog examples -/

/-- An integer column row, not nullable, for the examples. -/
def rawIntCol (name : String) : RawColumn :=
  { column_name := name, data_type := "integer", udt_name := "int4",
    numeric_precision := some 32, numeric_scale := some 0,
    character_maximum_length := none, is_nullable := "NO", description := "" }

/-- The ColumnDefinition getColumns produces from `rawIntCol name`. -/
def intColDef (name : String) : ColumnDefinition :=
  { Name := name, DataType := "integer", CustomType := false,
    Description := "", IsNullable := false }

/-- A catalog with one table users(id PRIMARY KEY, email) and one enum. -/
def dbUsers : DB :=
  { tableRows := [("users", "")]
    rawColumns := fun n => if n = "users" then [rawIntCol "id", rawIntCol "email"] else []
    constraints := fun n =>
      if n = "users" then
        [{ LocalColumns := [{ Table := "users", Column := "id" }], ForeignColumns := [],
           ConstraintName := "users_pkey", ConstraintType := "PRIMARY KEY" }]
      else []
    enumRows := [("status", "active|archived|deleted", "")] }

/-- The Table getFullSchema assembles for dbUsers. -/
def usersTable : Table :=
  { Name := "users", Description := "", KeyColumns := [intColDef "id"],
    Columns := [intColDef "email"], ForeignKeys := [] }

/-- The Schema getFullSchema returns for dbUsers. -/
def usersSchema : Schema :=
  { Tables := [usersTable],
    Enums := [{ Name := "status", Description := "",
                Values := ["active", "archived", "deleted"] }] }

/-- A catalog whose only table has a two-local-column FOREIGN KEY
constraint and no PRIMARY KEY constraint. -/
def dbBadFK : DB :=
  { tableRows := [("orders", "")]
    rawColumns := fun _ => [rawIntCol "id"]
    constraints := fun n =>
      if n = "orders" then
        [{ LocalColumns := [{ Table := "orders", Column := "a" },
                            { Table := "orders", Column := "b" }],
           ForeignColumns := [{ Table := "x", Column := "id" }],
           ConstraintName := "orders_fk", ConstraintType := "FOREIGN KEY" }]
      else []
    enumRows := [] }

/-- A PRIMARY KEY constraint whose local column belongs to another table. -/
def pkBadConstraint : ConstraintDefinition :=
  { LocalColumns := [{ Table := "t2", Column := "id" }], ForeignColumns := [],
    ConstraintName := "t1_pkey", ConstraintType := "PRIMARY KEY" }

/-- A CHECK constraint, outside the supported closed set. -/
def checkConstraint : ConstraintDefinition :=
  { LocalColumns := [], ForeignColumns := [],
    ConstraintName := "c1", ConstraintType := "CHECK" }

/-- A catalog where table orders has a foreign key into table logs, and
logs is meant to be excluded from extraction. -/
def dbRefExcluded : DB :=
  { tableRows := [("orders", ""), ("logs", "")]
    rawColumns := fun n =>
      if n = "orders" then [rawIntCol "id", rawIntCol "log_id"] else [rawIntCol "id"]
    constraints := fun n =>
      if n = "orders" then
        [{ LocalColumns := [{ Table := "orders", Column := "log_id" }],
           ForeignColumns := [{ Table := "logs", Column := "id" }],
           ConstraintName := "orders_log_id_fkey", ConstraintType := "FOREIGN KEY" }]
      else []
    enumRows := [] }

/-- The Table getFullSchema assembles for orders in dbRefExcluded. -/
def refTable : Table :=
  { Name := "orders", Description := "", KeyColumns := [],
    Columns := [intColDef "id", intColDef "log_id"],
    ForeignKeys := [{ Column := "log_id", Name := "orders_log_id_fkey",
                      RefTable := "logs", RefColumn := "id" }] }

/-- The Schema getFullSchema returns for dbRefExcluded with logs excluded:
the foreign key still names logs, which is not among the tables. -/
def refSchema : Schema := { Tables := [refTable], Enums := [] }

/-- A catalog with tables logs and logst, to exercise exact-match exclusion. -/
def dbPrefix : DB :=
  { tableRows := [("logs", ""), ("logst", "")]
    rawColumns := fun _ => []
    constraints := fun _ => []
    enumRows := [] }

/-- A numeric(10,2) column row, for the type-formatting witness. -/
def rawNumericCol : RawColumn :=
  { column_name := "price", data_type := "numeric", udt_name := "numeric",
    numeric_precision := some 10, numeric_scale := some 2,
    character_maximum_length := none, is_nullable := "YES", description := "" }

/-! ### Lemmas about the partition and the primary-key column scan -/

theorem partitionColumns_eq_filter (pk : List String) (cols : List ColumnDefinition) :
    partitionColumns pk cols =
      (cols.filter (fun c => pk.contains c.Name),
       cols.filter (fun c => !(pk.contains c.Name))) := by
  induction cols with
  | nil => rfl
  | cons col rest ih =>
    simp only [partitionColumns, ih, List.filter_cons]
    cases h : pk.contains col.Name <;> simp [h]

theorem pkColumnNames_ok_eq (tn cn : String) (cols : List ColumnIdentity) :
    ∀ names, pkColumnNames tn cn cols = .ok names →
      names = cols.map (fun col => col.Column) := by
  induction cols with
  | nil =>
    intro names h
    simp only [pkColumnNames, Except.ok.injEq] at h
    simp [← h]
  | cons col rest ih =>
    intro names h
    by_cases hc : col.Table = tn
    · simp only [pkColumnNames, hc, ne_eq, not_true_eq_false, if_false] at h
      cases hr : pkColumnNames tn cn rest with
      | error e => rw [hr] at h; cases h
      | ok ns =>
        rw [hr] at h
        cases h
        simp [ih ns hr]
    · simp [pkColumnNames, hc] at h

theorem pkColumnNames_ok_forall (tn cn : String) (cols : List ColumnIdentity) :
    ∀ names, pkColumnNames tn cn cols = .ok names → ∀ col ∈ cols, col.Table = tn := by
  induction cols with
  | nil => intro names _ col hcol; cases hcol
  | cons col rest ih =>
    intro names h c hc
    by_cases hcol : col.Table = tn
    · simp only [pkColumnNames, hcol, ne_eq, not_true_eq_false, if_false] at h
      cases hr : pkColumnNames tn cn rest with
      | error e => rw [hr] at h; cases h
      | ok ns =>
        rcases List.mem_cons.mp hc with rfl | hmem
        · exact hcol
        · exact ih ns hr c hmem
    · simp [pkColumnNames, hcol] at h

theorem pkColumnNames_all_ok (tn cn : String) (cols : List ColumnIdentity)
    (h : ∀ col ∈ cols, col.Table = tn) :
    pkColumnNames tn cn cols = .ok (cols.map (fun col => col.Column)) := by
  induction cols with
  | nil => rfl
  | cons col rest ih =>
    have hcol := h col (by simp)
    have hrest : ∀ c ∈ rest, c.Table = tn := fun c hc => h c (by simp [hc])
    simp [pkColumnNames, hcol, ih hrest]

theorem pkColumnNames_first_error (tn cn : String) (lpre : List ColumnIdentity)
    (col : ColumnIdentity) (lpost : List ColumnIdentity)
    (hpre : ∀ c ∈ lpre, c.Table = tn) (hcol : col.Table ≠ tn) :
    pkColumnNames tn cn (lpre ++ col :: lpost)
      = .error (.schemaInconsistencyPK tn cn col.Table) := by
  induction lpre with
  | nil => simp [pkColumnNames, hcol]
  | cons c rest ih =>
    have hc := hpre c (by simp)
    have hrest : ∀ x ∈ rest, x.Table = tn := fun x hx => hpre x (by simp [hx])
    simp [pkColumnNames, hc, ih hrest]

/-! ### Step lemmas: one unfolding of the classifier per constraint kind -/

theorem classifyConstraints_cons_pk (tn : String) (c : ConstraintDefinition)
    (rest : List ConstraintDefinition) (hPK : c.ConstraintType = "PRIMARY KEY") :
    classifyConstraints tn (c :: rest) =
      match pkColumnNames tn c.ConstraintName c.LocalColumns with
      | .error e => .error e
      | .ok names =>
        match classifyConstraints tn rest with
        | .error e => .error e
        | .ok (pk, fk) => .ok (names ++ pk, fk) := by
  simp [classifyConstraints, hPK]

theorem classifyConstraints_cons_fk (tn : String) (c : ConstraintDefinition)
    (rest : List ConstraintDefinition) (localCol foreignCol : ColumnIdentity)
    (hFK : c.ConstraintType = "FOREIGN KEY") (hl : c.LocalColumns = [localCol])
    (hf : c.ForeignColumns = [foreignCol]) (hloc : localCol.Table = tn) :
    classifyConstraints tn (c :: rest) =
      match classifyConstraints tn rest with
      | .error e => .error e
      | .ok (pk, fk) =>
        .ok (pk, { Column := localCol.Column, Name := c.ConstraintName,
                   RefTable := foreignCol.Table, RefColumn := foreignCol.Column } :: fk) := by
  have hPK : ¬ c.ConstraintType = "PRIMARY KEY" := by rw [hFK]; decide
  simp [classifyConstraints, hPK, hFK, hl, hf, hloc]

theorem classifyConstraints_cons_fk_mismatch (tn : String) (c : ConstraintDefinition)
    (rest : List ConstraintDefinition) (localCol foreignCol : ColumnIdentity)
    (hFK : c.ConstraintType = "FOREIGN KEY") (hl : c.LocalColumns = [localCol])
    (hf : c.ForeignColumns = [foreignCol]) (hloc : localCol.Table ≠ tn) :
    classifyConstraints tn (c :: rest)
      = .error (.schemaInconsistencyFK tn c.ConstraintName localCol.Table) := by
  have hPK : ¬ c.ConstraintType = "PRIMARY KEY" := by rw [hFK]; decide
  simp [classifyConstraints, hPK, hFK, hl, hf, hloc]

theorem classifyConstraints_cons_fk_bad (tn : String) (c : ConstraintDefinition)
    (rest : List ConstraintDefinition) (hFK : c.ConstraintType = "FOREIGN KEY")
    (hbad : c.LocalColumns.length ≠ 1 ∨ c.ForeignColumns.length ≠ 1) :
    classifyConstraints tn (c :: rest) = .error (.validation c.ConstraintName) := by
  have hPK : ¬ c.ConstraintType = "PRIMARY KEY" := by rw [hFK]; decide
  rcases hl : c.LocalColumns with _ | ⟨a, _ | ⟨a2, as⟩⟩ <;>
    rcases hf : c.ForeignColumns with _ | ⟨b, _ | ⟨b2, bs⟩⟩ <;>
    first
      | (simp [classifyConstraints, hPK, hFK, hl, hf]; done)
      | (exfalso; revert hbad; simp [hl, hf])

theorem classifyConstraints_cons_unknown (tn : String) (c : ConstraintDefinition)
    (rest : List ConstraintDefinition) (hPK : c.ConstraintType ≠ "PRIMARY KEY")
    (hFK : c.ConstraintType ≠ "FOREIGN KEY") :
    classifyConstraints tn (c :: rest) = .error (.unknownConstraint c.ConstraintType) := by
  simp [classifyConstraints, hPK, hFK]

/-! ### Characterization of the classifier -/

theorem classifyConstraints_ok_eq (tn : String) (cs : List ConstraintDefinition) :
    ∀ x, classifyConstraints tn cs = .ok x → x = (pkNames cs, cs.filterMap fkDefOf) := by
  induction cs with
  | nil =>
    intro x h
    simp only [classifyConstraints, Except.ok.injEq] at h
    simp [← h, pkNames]
  | cons c rest ih =>
    intro x h
    by_cases hPK : c.ConstraintType = "PRIMARY KEY"
    · rw [classifyConstraints_cons_pk tn c rest hPK] at h
      cases hn : pkColumnNames tn c.ConstraintName c.LocalColumns with
      | error e => rw [hn] at h; cases h
      | ok names =>
        rw [hn] at h
        cases hr : classifyConstraints tn rest with
        | error e => rw [hr] at h; cases h
        | ok y =>
          obtain ⟨pk, fk⟩ := y
          rw [hr] at h
          cases h
          have hy := ih (pk, fk) hr
          rw [Prod.mk.injEq] at hy
          obtain ⟨hpk, hfk⟩ := hy
          have hn' := pkColumnNames_ok_eq tn c.ConstraintName c.LocalColumns names hn
          simp [pkNames, fkDefOf, hPK, hpk, hfk, hn']
    · by_cases hFK : c.ConstraintType = "FOREIGN KEY"
      · rcases hlen : (decide (c.LocalColumns.length = 1) && decide (c.ForeignColumns.length = 1)) with _ | _
        · have hbad : c.LocalColumns.length ≠ 1 ∨ c.ForeignColumns.length ≠ 1 := by
            rcases Bool.and_eq_false_iff.mp hlen with hb | hb <;>
              simp at hb <;> [exact Or.inl hb; exact Or.inr hb]
          rw [classifyConstraints_cons_fk_bad tn c rest hFK hbad] at h
          cases h
        · obtain ⟨hb1, hb2⟩ := Bool.and_eq_true_iff.mp hlen
          simp only [decide_eq_true_eq] at hb1 hb2
          obtain ⟨localCol, hl⟩ := List.length_eq_one.mp hb1
          obtain ⟨foreignCol, hf⟩ := List.length_eq_one.mp hb2
          by_cases hloc : localCol.Table = tn
          · rw [classifyConstraints_cons_fk tn c rest localCol foreignCol hFK hl hf hloc] at h
            cases hr : classifyConstraints tn rest with
            | error e => rw [hr] at h; cases h
            | ok y =>
              obtain ⟨pk, fk⟩ := y
              rw [hr] at h
              cases h
              have hy := ih (pk, fk) hr
              rw [Prod.mk.injEq] at hy
              obtain ⟨hpk, hfk⟩ := hy
              simp [pkNames, fkDefOf, hPK, hFK, hl, hf, hpk, hfk]
          · rw [classifyConstraints_cons_fk_mismatch tn c rest localCol foreignCol
                hFK hl hf hloc] at h
            cases h
      · rw [classifyConstraints_cons_unknown tn c rest hPK hFK] at h
        cases h

theorem classifyConstraints_ok_forall (tn : String) (cs : List ConstraintDefinition) :
    ∀ x, classifyConstraints tn cs = .ok x → ∀ c ∈ cs, constraintOK tn c = true := by
  induction cs with
  | nil => intro x _ c hc; cases hc
  | cons c rest ih =>
    intro x h c' hc'
    by_cases hPK : c.ConstraintType = "PRIMARY KEY"
    · rw [classifyConstraints_cons_pk tn c rest hPK] at h
      cases hn : pkColumnNames tn c.ConstraintName c.LocalColumns with
      | error e => rw [hn] at h; cases h
      | ok names =>
        rw [hn] at h
        cases hr : classifyConstraints tn rest with
        | error e => rw [hr] at h; cases h
        | ok y =>
          rcases List.mem_cons.mp hc' with rfl | hmem
          · have := pkColumnNames_ok_forall tn c'.ConstraintName c'.LocalColumns names hn
            simp only [constraintOK, hPK, if_true, List.all_eq_true]
            exact fun col hcol => by simp [this col hcol]
          · exact ih y hr c' hmem
    · by_cases hFK : c.ConstraintType = "FOREIGN KEY"
      · rcases hlen : (decide (c.LocalColumns.length = 1) && decide (c.ForeignColumns.length = 1)) with _ | _
        · have hbad : c.LocalColumns.length ≠ 1 ∨ c.ForeignColumns.length ≠ 1 := by
            rcases Bool.and_eq_false_iff.mp hlen with hb | hb <;>
              simp at hb <;> [exact Or.inl hb; exact Or.inr hb]
          rw [classifyConstraints_cons_fk_bad tn c rest hFK hbad] at h
          cases h
        · obtain ⟨hb1, hb2⟩ := Bool.and_eq_true_iff.mp hlen
          simp only [decide_eq_true_eq] at hb1 hb2
          obtain ⟨localCol, hl⟩ := List.length_eq_one.mp hb1
          obtain ⟨foreignCol, hf⟩ := List.length_eq_one.mp hb2
          by_cases hloc : localCol.Table = tn
          · rw [classifyConstraints_cons_fk tn c rest localCol foreignCol hFK hl hf hloc] at h
            cases hr : classifyConstraints tn rest with
            | error e => rw [hr] at h; cases h
            | ok y =>
              rcases List.mem_cons.mp hc' with rfl | hmem
              · simp [constraintOK, hPK, hFK, hl, hf, hloc]
              · exact ih y hr c' hmem
          · rw [classifyConstraints_cons_fk_mismatch tn c rest localCol foreignCol
                hFK hl hf hloc] at h
            cases h
      · rw [classifyConstraints_cons_unknown tn c rest hPK hFK] at h
        cases h

theorem classifyConstraints_all_ok (tn : String) (cs : List ConstraintDefinition)
    (h : ∀ c ∈ cs, constraintOK tn c = true) :
    classifyConstraints tn cs = .ok (pkNames cs, cs.filterMap fkDefOf) := by
  induction cs with
  | nil => simp [classifyConstraints, pkNames]
  | cons c rest ih =>
    have hc := h c (by simp)
    have hrest : ∀ x ∈ rest, constraintOK tn x = true :=
      fun x hx => h x (List.mem_cons_of_mem _ hx)
    by_cases hPK : c.ConstraintType = "PRIMARY KEY"
    · have hall : ∀ col ∈ c.LocalColumns, col.Table = tn := by
        simp only [constraintOK, hPK, if_true, List.all_eq_true] at hc
        exact fun col hcol => by simpa using hc col hcol
      simp [classifyConstraints, hPK, pkColumnNames_all_ok tn c.ConstraintName _ hall,
            ih hrest, pkNames, fkDefOf]
    · by_cases hFK : c.ConstraintType = "FOREIGN KEY"
      · rcases hl : c.LocalColumns with _ | ⟨l, _ | ⟨l2, ls⟩⟩ <;>
          rcases hf : c.ForeignColumns with _ | ⟨f, _ | ⟨f2, fs⟩⟩ <;>
          simp only [constraintOK, hPK, hFK, hl, hf, if_true, if_false] at hc <;>
          try cases hc
        have hloc : l.Table = tn := by simpa using hc
        simp [classifyConstraints, hPK, hFK, hl, hf, hloc, ih hrest, pkNames, fkDefOf]
      · simp [constraintOK, hPK, hFK] at hc

theorem classifyConstraints_append_error (tn : String) (pre : List ConstraintDefinition) :
    ∀ (rest : List ConstraintDefinition) (x : List String × List ForeignKeyDefinition)
      (e : AssembleError), classifyConstraints tn pre = .ok x →
      classifyConstraints tn rest = .error e →
      classifyConstraints tn (pre ++ rest) = .error e := by
  induction pre with
  | nil => intro rest x e _ hrest; simpa using hrest
  | cons c pre ih =>
    intro rest x e hpre hrest
    by_cases hPK : c.ConstraintType = "PRIMARY KEY"
    · rw [classifyConstraints_cons_pk tn c pre hPK] at hpre
      cases hn : pkColumnNames tn c.ConstraintName c.LocalColumns with
      | error e0 => rw [hn] at hpre; cases hpre
      | ok names =>
        rw [hn] at hpre
        cases hr : classifyConstraints tn pre with
        | error e0 => rw [hr] at hpre; cases hpre
        | ok y =>
          rw [List.cons_append, classifyConstraints_cons_pk tn c (pre ++ rest) hPK, hn,
              ih rest y e hr hrest]
    · by_cases hFK : c.ConstraintType = "FOREIGN KEY"
      · rcases hlen : (decide (c.LocalColumns.length = 1) && decide (c.ForeignColumns.length = 1)) with _ | _
        · have hbad : c.LocalColumns.length ≠ 1 ∨ c.ForeignColumns.length ≠ 1 := by
            rcases Bool.and_eq_false_iff.mp hlen with hb | hb <;>
              simp at hb <;> [exact Or.inl hb; exact Or.inr hb]
          rw [classifyConstraints_cons_fk_bad tn c pre hFK hbad] at hpre
          cases hpre
        · obtain ⟨hb1, hb2⟩ := Bool.and_eq_true_iff.mp hlen
          simp only [decide_eq_true_eq] at hb1 hb2
          obtain ⟨localCol, hl⟩ := List.length_eq_one.mp hb1
          obtain ⟨foreignCol, hf⟩ := List.length_eq_one.mp hb2
          by_cases hloc : localCol.Table = tn
          · rw [classifyConstraints_cons_fk tn c pre localCol foreignCol hFK hl hf hloc] at hpre
            cases hr : classifyConstraints tn pre with
            | error e0 => rw [hr] at hpre; cases hpre
            | ok y =>
              rw [List.cons_append,
                  classifyConstraints_cons_fk tn c (pre ++ rest) localCol foreignCol hFK hl hf hloc,
                  ih rest y e hr hrest]
          · rw [classifyConstraints_cons_fk_mismatch tn c pre localCol foreignCol
                hFK hl hf hloc] at hpre
            cases hpre
      · rw [classifyConstraints_cons_unknown tn c pre hPK hFK] at hpre
        cases hpre

/-! ### Lemmas about processTable, assembleTables and getFullSchema -/

theorem processTable_ok_eq (table : Table) (cols : List ColumnDefinition)
    (constraints : List ConstraintDefinition) (t' : Table)
    (h : processTable table cols constraints = .ok t') :
    t' = { table with
           KeyColumns := cols.filter (fun c => (pkNames constraints).contains c.Name),
           Columns := cols.filter (fun c => !((pkNames constraints).contains c.Name)),
           ForeignKeys := constraints.filterMap fkDefOf } := by
  simp only [processTable] at h
  cases hc : classifyConstraints table.Name constraints with
  | error e => rw [hc] at h; cases h
  | ok x =>
    obtain ⟨pk, fk⟩ := x
    rw [hc] at h
    have hx := classifyConstraints_ok_eq table.Name constraints (pk, fk) hc
    rw [Prod.mk.injEq] at hx
    obtain ⟨hpk, hfk⟩ := hx
    cases h
    simp [partitionColumns_eq_filter, hpk, hfk]

theorem processTable_all_ok (table : Table) (cols : List ColumnDefinition)
    (constraints : List ConstraintDefinition)
    (h : ∀ c ∈ constraints, constraintOK table.Name c = true) :
    processTable table cols constraints = .ok { table with
      KeyColumns := cols.filter (fun c => (pkNames constraints).contains c.Name),
      Columns := cols.filter (fun c => !((pkNames constraints).contains c.Name)),
      ForeignKeys := constraints.filterMap fkDefOf } := by
  simp [processTable, classifyConstraints_all_ok table.Name constraints h,
        partitionColumns_eq_filter]

theorem processTable_ok_forall (table : Table) (cols : List ColumnDefinition)
    (constraints : List ConstraintDefinition) (t' : Table)
    (h : processTable table cols constraints = .ok t') :
    ∀ c ∈ constraints, constraintOK table.Name c = true := by
  simp only [processTable] at h
  cases hc : classifyConstraints table.Name constraints with
  | error e => rw [hc] at h; cases h
  | ok x => exact classifyConstraints_ok_forall table.Name constraints x hc

theorem assembleTables_ok_forall (db : DB) (ts : List Table) :
    ∀ l, assembleTables db ts = .ok l → ∀ t ∈ ts,
      ∃ t', processTable t (getColumns db t.Name) (db.constraints t.Name) = .ok t' := by
  induction ts with
  | nil => intro l _ t ht; cases ht
  | cons table rest ih =>
    intro l h t ht
    simp only [assembleTables] at h
    cases hp : processTable table (getColumns db table.Name) (db.constraints table.Name) with
    | error e => rw [hp] at h; cases h
    | ok t0 =>
      rw [hp] at h
      cases hr : assembleTables db rest with
      | error e => rw [hr] at h; cases h
      | ok ts0 =>
        rcases List.mem_cons.mp ht with rfl | hmem
        · exact ⟨t0, hp⟩
        · exact ih ts0 hr t hmem

theorem assembleTables_ok_mem_rev (db : DB) (ts : List Table) :
    ∀ l, assembleTables db ts = .ok l → ∀ t' ∈ l, ∃ t ∈ ts,
      processTable t (getColumns db t.Name) (db.constraints t.Name) = .ok t' := by
  induction ts with
  | nil =>
    intro l h t' ht'
    simp only [assembleTables, Except.ok.injEq] at h
    rw [← h] at ht'
    cases ht'
  | cons table rest ih =>
    intro l h t' ht'
    simp only [assembleTables] at h
    cases hp : processTable table (getColumns db table.Name) (db.constraints table.Name) with
    | error e => rw [hp] at h; cases h
    | ok t0 =>
      rw [hp] at h
      cases hr : assembleTables db rest with
      | error e => rw [hr] at h; cases h
      | ok ts0 =>
        rw [hr] at h
        cases h
        rcases List.mem_cons.mp ht' with rfl | hmem
        · exact ⟨table, by simp, hp⟩
        · obtain ⟨t, htmem, hpt⟩ := ih ts0 hr t' hmem
          exact ⟨t, by simp [htmem], hpt⟩

theorem assembleTables_ok_names (db : DB) (ts : List Table) :
    ∀ l, assembleTables db ts = .ok l → l.map Table.Name = ts.map Table.Name := by
  induction ts with
  | nil =>
    intro l h
    simp only [assembleTables, Except.ok.injEq] at h
    simp [← h]
  | cons table rest ih =>
    intro l h
    simp only [assembleTables] at h
    cases hp : processTable table (getColumns db table.Name) (db.constraints table.Name) with
    | error e => rw [hp] at h; cases h
    | ok t0 =>
      rw [hp] at h
      cases hr : assembleTables db rest with
      | error e => rw [hr] at h; cases h
      | ok ts0 =>
        rw [hr] at h
        cases h
        have hname : t0.Name = table.Name := by
          rw [processTable_ok_eq table (getColumns db table.Name) (db.constraints table.Name)
              t0 hp]
        simp [hname, ih ts0 hr]

theorem getFullSchema_ok_parts (db : DB) (exclude : List String) (s : Schema)
    (h : getFullSchema db exclude = .ok s) :
    assembleTables db (getTableNames db exclude) = .ok s.Tables ∧
      s.Enums = getEnums db.enumRows := by
  simp only [getFullSchema] at h
  cases ha : assembleTables db (getTableNames db exclude) with
  | error e => rw [ha] at h; cases h
  | ok ts =>
    rw [ha] at h
    cases h
    exact ⟨rfl, rfl⟩

theorem constraintOK_fk_shape (tn : String) (c : ConstraintDefinition)
    (hFK : c.ConstraintType = "FOREIGN KEY") (h : constraintOK tn c = true) :
    ∃ localCol foreignCol, c.LocalColumns = [localCol] ∧ c.ForeignColumns = [foreignCol] ∧
      localCol.Table = tn := by
  have hPK : ¬ c.ConstraintType = "PRIMARY KEY" := by rw [hFK]; decide
  rcases hl : c.LocalColumns with _ | ⟨a, _ | ⟨a2, as⟩⟩ <;>
    rcases hf : c.ForeignColumns with _ | ⟨b, _ | ⟨b2, bs⟩⟩ <;>
    simp [constraintOK, hPK, hFK, hl, hf] at h
  exact ⟨a, b, rfl, rfl, h⟩

theorem constraintOK_pk_forall (tn : String) (c : ConstraintDefinition)
    (hPK : c.ConstraintType = "PRIMARY KEY") (h : constraintOK tn c = true) :
    ∀ col ∈ c.LocalColumns, col.Table = tn := by
  simp only [constraintOK, hPK, if_true, List.all_eq_true] at h
  exact fun col hcol => by simpa using h col hcol

theorem pkNames_eq_nil (cs : List ConstraintDefinition)
    (h : ∀ c ∈ cs, c.ConstraintType ≠ "PRIMARY KEY") : pkNames cs = [] := by
  induction cs with
  | nil => rfl
  | cons c rest ih =>
    have hc := h c (by simp)
    have hrest : ∀ x ∈ rest, x.ConstraintType ≠ "PRIMARY KEY" :=
      fun x hx => h x (by simp [hx])
    simp [pkNames, hc] at ih ⊢
    simpa [pkNames] using ih hrest

theorem goSplit_stringAgg (labels : List String) (hne : labels ≠ [])
    (hsep : ∀ label ∈ labels, '|' ∉ label.data) :
    goSplit '|' (stringAgg '|' labels) = labels := by
  have hx : ∀ l ∈ labels.map String.data, '|' ∉ l := by
    intro l hl
    obtain ⟨lab, hmem, rfl⟩ := List.mem_map.mp hl
    exact hsep lab hmem
  have hls : labels.map String.data ≠ [] := by
    simpa using hne
  show ((String.mk (List.intercalate ['|'] (labels.map String.data))).data.splitOn '|').map
      String.mk = labels
  rw [show (String.mk (List.intercalate ['|'] (labels.map String.data))).data
        = List.intercalate ['|'] (labels.map String.data) from rfl]
  rw [List.splitOn_intercalate (labels.map String.data) '|' hx hls, List.map_map]
  exact List.map_id'' (fun s => rfl) labels

/-! ### The claims -/

/-- Claim C1: for every table assembled by getFullSchema, KeyColumns and
Columns are the two halves of a stable filter of the fetched column list
on membership of the column name in the table's primary-key set (the
local column names of its PRIMARY KEY constraints, pkNames) — each
partition preserves the fetched ordinal order — and their concatenation
is a permutation of the fetched column list (no duplicates, no
omissions). -/
theorem getFullSchema_column_partition (db : DB) (exclude : List String) (s : Schema)
    (hs : getFullSchema db exclude = .ok s) :
    ∀ t ∈ s.Tables,
      t.KeyColumns = (getColumns db t.Name).filter
        (fun c => (pkNames (db.constraints t.Name)).contains c.Name) ∧
      t.Columns = (getColumns db t.Name).filter
        (fun c => !((pkNames (db.constraints t.Name)).contains c.Name)) ∧
      (t.KeyColumns ++ t.Columns).Perm (getColumns db t.Name) := by
  intro t ht
  obtain ⟨ha, _⟩ := getFullSchema_ok_parts db exclude s hs
  obtain ⟨t0, _, hpt⟩ := assembleTables_ok_mem_rev db _ s.Tables ha t ht
  have heq := processTable_ok_eq t0 (getColumns db t0.Name) (db.constraints t0.Name) t hpt
  subst heq
  exact ⟨rfl, rfl, List.filter_append_perm _ _⟩

/-- Witness for C1 at the dbUsers catalog. -/
theorem getFullSchema_column_partition_witness :
    usersTable.KeyColumns = (getColumns dbUsers usersTable.Name).filter
      (fun c => (pkNames (dbUsers.constraints usersTable.Name)).contains c.Name) ∧
    usersTable.Columns = (getColumns dbUsers usersTable.Name).filter
      (fun c => !((pkNames (dbUsers.constraints usersTable.Name)).contains c.Name)) ∧
    (usersTable.KeyColumns ++ usersTable.Columns).Perm (getColumns dbUsers usersTable.Name) :=
  getFullSchema_column_partition dbUsers [] usersSchema rfl usersTable (by decide)

/-- Claim C3: the rendered data-type string of every column follows the
type-formatting rule of the column query's CASE expression, and
CustomType marks exactly the USER-DEFINED rows. -/
theorem column_type_formatting (r : RawColumn) :
    (r.data_type = "USER-DEFINED" →
      (mkColumnDefinition r).DataType = r.udt_name ∧ (mkColumnDefinition r).CustomType = true) ∧
    (∀ p q : Nat, r.data_type = "numeric" → r.numeric_precision = some p →
      r.numeric_scale = some q →
      (mkColumnDefinition r).DataType = "Number(" ++ toString p ++ "," ++ toString q ++ ")") ∧
    (∀ n : Nat, r.data_type = "character" → r.character_maximum_length = some n →
      (mkColumnDefinition r).DataType = "Char(" ++ toString n ++ ")") ∧
    (r.data_type = "timestamp with time zone" →
      (mkColumnDefinition r).DataType = "timestamp") ∧
    (r.data_type ≠ "USER-DEFINED" → r.data_type ≠ "numeric" → r.data_type ≠ "character" →
      r.data_type ≠ "timestamp with time zone" →
      (mkColumnDefinition r).DataType = r.data_type) ∧
    (r.data_type ≠ "USER-DEFINED" → (mkColumnDefinition r).CustomType = false) := by
  refine ⟨fun h => ⟨?_, ?_⟩, fun p q h hp hq => ?_, fun n h hn => ?_, fun h => ?_,
    fun h1 h2 h3 h4 => ?_, fun h => ?_⟩ <;>
    simp [mkColumnDefinition, formatDataType, concatArg, *]

/-- Witness for C3 at the numeric(10,2) column row. -/
theorem column_type_formatting_witness :
    (mkColumnDefinition rawNumericCol).DataType = "Number(10,2)" := by
  exact (column_type_formatting rawNumericCol).2.1 10 2 rfl rfl rfl

/-- Claim C7: enum value order is preserved end-to-end: splitting the
string_agg-joined label string recovers exactly the declared label
sequence for every enum row. -/
theorem enum_value_order (declared : List (String × List String × String))
    (hne : ∀ e ∈ declared, e.2.1 ≠ [])
    (hsep : ∀ e ∈ declared, ∀ label ∈ e.2.1, '|' ∉ label.data) :
    getEnums (declared.map (fun e => (e.1, stringAgg '|' e.2.1, e.2.2)))
      = declared.map (fun e => { Name := e.1, Description := e.2.2, Values := e.2.1 }) := by
  simp only [getEnums, List.map_map]
  apply List.map_congr_left
  intro e he
  simp [Function.comp, goSplit_stringAgg e.2.1 (hne e he) (hsep e he)]

/-- Witness for C7 at the status enum with declared order
[active, archived, deleted]. -/
theorem enum_value_order_witness :
    getEnums ([("status", ["active", "archived", "deleted"], "")].map
        (fun e => (e.1, stringAgg '|' e.2.1, e.2.2)))
      = [("status", ["active", "archived", "deleted"], "")].map
          (fun e => { Name := e.1, Description := e.2.2, Values := e.2.1 }) :=
  enum_value_order [("status", ["active", "archived", "deleted"], "")]
    (by decide) (by decide)

/-- Claim C6: exclusion is exact, case-sensitive string equality on
unqualified table names: a listed table is omitted iff its name is
literally an entry of the exclusion list, other names (prefix or
substring matches included) survive with order and description intact. -/
theorem table_exclusion_exact (db : DB) (exclude : List String) :
    ((getTableNames db exclude).map Table.Name
       = (db.tableRows.map Prod.fst).filter (fun n => !(exclude.contains n))) ∧
    (∀ r ∈ db.tableRows,
       ((∃ t ∈ getTableNames db exclude, t.Name = r.1) ↔ r.1 ∉ exclude)) ∧
    (∀ r ∈ db.tableRows, (∀ e ∈ exclude, e ≠ r.1) →
       ({ Name := r.1, Description := r.2, KeyColumns := [], Columns := [],
          ForeignKeys := [] } : Table) ∈ getTableNames db exclude) := by
  refine ⟨?_, ?_, ?_⟩
  · simp only [getTableNames, List.map_map]
    generalize db.tableRows = rows
    induction rows with
    | nil => rfl
    | cons r rest ih =>
      simp only [List.filter_cons, List.map_cons]
      by_cases h : r.1 ∈ exclude <;> simp [h] at ih ⊢ <;> simp [ih]
  · intro r hr
    constructor
    · rintro ⟨t, ht, hname⟩
      simp only [getTableNames, List.mem_map] at ht
      obtain ⟨r0, hr0, rfl⟩ := ht
      rw [List.mem_filter] at hr0
      have hn0 : r0.1 = r.1 := hname
      rw [hn0] at hr0
      simpa using hr0.2
    · intro hmem
      exact ⟨_, by
        simp only [getTableNames, List.mem_map]
        exact ⟨r, List.mem_filter.mpr ⟨hr, by simp [hmem]⟩, rfl⟩, rfl⟩
  · intro r hr hne
    have hmem : r.1 ∉ exclude := fun hx => hne r.1 hx rfl
    simp only [getTableNames, List.mem_map]
    exact ⟨r, List.mem_filter.mpr ⟨hr, by simp [hmem]⟩, rfl⟩

/-- Witness for C6: a table named logst survives the exclusion list
[logs] even though logs is a prefix of its name, while logs itself is
excluded. -/
theorem table_exclusion_exact_witness :
    ({ Name := "logst", Description := "", KeyColumns := [], Columns := [],
       ForeignKeys := [] } : Table) ∈ getTableNames dbPrefix ["logs"] :=
  (table_exclusion_exact dbPrefix ["logs"]).2.2 ("logst", "") (by decide) (by decide)

/-- Claim C8: the assembler introduces no sorting — on success the table
order is the table-list order, each partition keeps ordinal order
(sublists of the fetched columns), foreign keys follow constraint scan
order, enums follow the enum query order — and assembly is deterministic
on identical inputs. -/
theorem assembler_preserves_order (db : DB) (exclude : List String) :
    (∀ s, getFullSchema db exclude = .ok s →
       s.Tables.map Table.Name = (getTableNames db exclude).map Table.Name ∧
       s.Enums = getEnums db.enumRows ∧
       ∀ t ∈ s.Tables,
         t.KeyColumns.Sublist (getColumns db t.Name) ∧
         t.Columns.Sublist (getColumns db t.Name) ∧
         t.ForeignKeys = (db.constraints t.Name).filterMap fkDefOf) ∧
    (∀ s1 s2, getFullSchema db exclude = .ok s1 → getFullSchema db exclude = .ok s2 →
       s1 = s2) := by
  constructor
  · intro s hs
    obtain ⟨ha, he⟩ := getFullSchema_ok_parts db exclude s hs
    refine ⟨assembleTables_ok_names db _ s.Tables ha, he, ?_⟩
    intro t ht
    obtain ⟨t0, _, hpt⟩ := assembleTables_ok_mem_rev db _ s.Tables ha t ht
    have heq := processTable_ok_eq t0 _ _ t hpt
    subst heq
    exact ⟨List.filter_sublist _, List.filter_sublist _, rfl⟩
  · intro s1 s2 h1 h2
    rw [h1] at h2
    exact Except.ok.inj h2

/-- Witness for C8 at the dbUsers catalog. -/
theorem assembler_preserves_order_witness :
    usersSchema.Tables.map Table.Name = (getTableNames dbUsers []).map Table.Name ∧
    usersSchema.Enums = getEnums dbUsers.enumRows ∧
    ∀ t ∈ usersSchema.Tables,
      t.KeyColumns.Sublist (getColumns dbUsers t.Name) ∧
      t.Columns.Sublist (getColumns dbUsers t.Name) ∧
      t.ForeignKeys = (dbUsers.constraints t.Name).filterMap fkDefOf :=
  (assembler_preserves_order dbUsers []).1 usersSchema rfl

/-- Claim C2: every foreign-key constraint with exactly one local and one
foreign column yields exactly one ForeignKeyDefinition with the matching
column, constraint name, referenced table and referenced column; a
foreign-key constraint with any other cardinality fails the classifier
with the validation error naming it, and the run returns no Schema. -/
theorem foreign_key_assembly (db : DB) (exclude : List String) (tn : String) :
    (∀ s, getFullSchema db exclude = .ok s → ∀ t ∈ s.Tables,
       t.ForeignKeys = (db.constraints t.Name).filterMap fkDefOf ∧
       ∀ c ∈ db.constraints t.Name, c.ConstraintType = "FOREIGN KEY" →
         c.LocalColumns.length = 1 ∧ c.ForeignColumns.length = 1) ∧
    (∀ (pre post : List ConstraintDefinition) (c : ConstraintDefinition)
       (x : List String × List ForeignKeyDefinition),
       classifyConstraints tn pre = .ok x →
       c.ConstraintType = "FOREIGN KEY" →
       (c.LocalColumns.length ≠ 1 ∨ c.ForeignColumns.length ≠ 1) →
       classifyConstraints tn (pre ++ c :: post) = .error (.validation c.ConstraintName)) ∧
    (∀ t ∈ getTableNames db exclude, ∀ c ∈ db.constraints t.Name,
       c.ConstraintType = "FOREIGN KEY" →
       (c.LocalColumns.length ≠ 1 ∨ c.ForeignColumns.length ≠ 1) →
       ∀ s, getFullSchema db exclude ≠ .ok s) := by
  refine ⟨?_, ?_, ?_⟩
  · intro s hs t ht
    obtain ⟨ha, _⟩ := getFullSchema_ok_parts db exclude s hs
    obtain ⟨t0, _, hpt⟩ := assembleTables_ok_mem_rev db _ s.Tables ha t ht
    have hok := processTable_ok_forall t0 _ _ t hpt
    have heq := processTable_ok_eq t0 _ _ t hpt
    subst heq
    refine ⟨rfl, ?_⟩
    intro c hc hFK
    obtain ⟨l, f, hl, hf, _⟩ := constraintOK_fk_shape t0.Name c hFK (hok c hc)
    simp [hl, hf]
  · intro pre post c x hpre hFK hbad
    exact classifyConstraints_append_error tn pre (c :: post) x _ hpre
      (classifyConstraints_cons_fk_bad tn c post hFK hbad)
  · intro t ht c hc hFK hbad s hs
    obtain ⟨ha, _⟩ := getFullSchema_ok_parts db exclude s hs
    obtain ⟨t', hpt⟩ := assembleTables_ok_forall db _ s.Tables ha t ht
    have hok := processTable_ok_forall t _ _ t' hpt c hc
    obtain ⟨l, f, hl, hf, _⟩ := constraintOK_fk_shape t.Name c hFK hok
    rcases hbad with hb | hb
    · exact hb (by simp [hl])
    · exact hb (by simp [hf])

/-- Witness for C2 at the dbRefExcluded catalog. -/
theorem foreign_key_assembly_witness :
    refTable.ForeignKeys = (dbRefExcluded.constraints refTable.Name).filterMap fkDefOf ∧
    ∀ c ∈ dbRefExcluded.constraints refTable.Name, c.ConstraintType = "FOREIGN KEY" →
      c.LocalColumns.length = 1 ∧ c.ForeignColumns.length = 1 :=
  (foreign_key_assembly dbRefExcluded ["logs"] "orders").1 refSchema rfl refTable (by decide)

/-- Claim C4: a PRIMARY KEY local column, or the single FOREIGN KEY local
column, owned by a table other than the current one fails the run with a
schema-inconsistency error naming the mismatched table and the
constraint, and no Schema is returned. -/
theorem constraint_table_mismatch (db : DB) (exclude : List String) (tn : String) :
    (∀ (pre post : List ConstraintDefinition) (c : ConstraintDefinition)
       (x : List String × List ForeignKeyDefinition)
       (lpre lpost : List ColumnIdentity) (col : ColumnIdentity),
       classifyConstraints tn pre = .ok x →
       c.ConstraintType = "PRIMARY KEY" →
       c.LocalColumns = lpre ++ col :: lpost →
       (∀ c0 ∈ lpre, c0.Table = tn) → col.Table ≠ tn →
       classifyConstraints tn (pre ++ c :: post)
         = .error (.schemaInconsistencyPK tn c.ConstraintName col.Table) ∧
       (AssembleError.schemaInconsistencyPK tn c.ConstraintName
           col.Table).isSchemaInconsistency = true) ∧
    (∀ (pre post : List ConstraintDefinition) (c : ConstraintDefinition)
       (x : List String × List ForeignKeyDefinition) (localCol foreignCol : ColumnIdentity),
       classifyConstraints tn pre = .ok x →
       c.ConstraintType = "FOREIGN KEY" → c.LocalColumns = [localCol] →
       c.ForeignColumns = [foreignCol] → localCol.Table ≠ tn →
       classifyConstraints tn (pre ++ c :: post)
         = .error (.schemaInconsistencyFK tn c.ConstraintName localCol.Table) ∧
       (AssembleError.schemaInconsistencyFK tn c.ConstraintName
           localCol.Table).isSchemaInconsistency = true) ∧
    (∀ t ∈ getTableNames db exclude, ∀ c ∈ db.constraints t.Name,
       ((c.ConstraintType = "PRIMARY KEY" ∧ ∃ col ∈ c.LocalColumns, col.Table ≠ t.Name) ∨
        (c.ConstraintType = "FOREIGN KEY" ∧ ∃ localCol foreignCol,
           c.LocalColumns = [localCol] ∧ c.ForeignColumns = [foreignCol] ∧
           localCol.Table ≠ t.Name)) →
       ∀ s, getFullSchema db exclude ≠ .ok s) := by
  refine ⟨?_, ?_, ?_⟩
  · intro pre post c x lpre lpost col hpre hPK hlc hall hcol
    refine ⟨?_, rfl⟩
    have hhead : classifyConstraints tn (c :: post)
        = .error (.schemaInconsistencyPK tn c.ConstraintName col.Table) := by
      rw [classifyConstraints_cons_pk tn c post hPK, hlc,
          pkColumnNames_first_error tn c.ConstraintName lpre col lpost hall hcol]
    exact classifyConstraints_append_error tn pre (c :: post) x _ hpre hhead
  · intro pre post c x localCol foreignCol hpre hFK hl hf hloc
    exact ⟨classifyConstraints_append_error tn pre (c :: post) x _ hpre
      (classifyConstraints_cons_fk_mismatch tn c post localCol foreignCol hFK hl hf hloc), rfl⟩
  · intro t ht c hc hmis s hs
    obtain ⟨ha, _⟩ := getFullSchema_ok_parts db exclude s hs
    obtain ⟨t', hpt⟩ := assembleTables_ok_forall db _ s.Tables ha t ht
    have hok := processTable_ok_forall t _ _ t' hpt c hc
    rcases hmis with ⟨hPK, col, hcolmem, hne⟩ | ⟨hFK, localCol, foreignCol, hl, hf, hne⟩
    · exact hne (constraintOK_pk_forall t.Name c hPK hok col hcolmem)
    · obtain ⟨l', f', hl', hf', hloc'⟩ := constraintOK_fk_shape t.Name c hFK hok
      rw [hl] at hl'
      obtain ⟨rfl, -⟩ := List.cons.inj hl'
      exact hne hloc'

/-- Witness for C4: a primary key whose local column belongs to table t2
while t1 is being processed. -/
theorem constraint_table_mismatch_witness :
    classifyConstraints "t1" ([] ++ pkBadConstraint :: [])
      = .error (.schemaInconsistencyPK "t1" "t1_pkey" "t2") ∧
    (AssembleError.schemaInconsistencyPK "t1" "t1_pkey" "t2").isSchemaInconsistency = true :=
  (constraint_table_mismatch dbUsers [] "t1").1 [] [] pkBadConstraint ([], [])
    [] [] { Table := "t2", Column := "id" } rfl rfl rfl (by simp) (by decide)

/-- Claim C5: any constraint kind outside the closed set
{PRIMARY KEY, FOREIGN KEY} fails the classifier with the
unknown-constraint error naming the kind, and the run returns no Schema;
the assembler re-validates this even for kinds the query layer should
have filtered out. -/
theorem unknown_constraint_kind (db : DB) (exclude : List String) (tn : String) :
    (∀ (pre post : List ConstraintDefinition) (c : ConstraintDefinition)
       (x : List String × List ForeignKeyDefinition),
       classifyConstraints tn pre = .ok x →
       c.ConstraintType ≠ "PRIMARY KEY" → c.ConstraintType ≠ "FOREIGN KEY" →
       classifyConstraints tn (pre ++ c :: post)
         = .error (.unknownConstraint c.ConstraintType)) ∧
    (∀ t ∈ getTableNames db exclude, ∀ c ∈ db.constraints t.Name,
       c.ConstraintType ≠ "PRIMARY KEY" → c.ConstraintType ≠ "FOREIGN KEY" →
       ∀ s, getFullSchema db exclude ≠ .ok s) := by
  constructor
  · intro pre post c x hpre hPK hFK
    exact classifyConstraints_append_error tn pre (c :: post) x _ hpre
      (classifyConstraints_cons_unknown tn c post hPK hFK)
  · intro t ht c hc hPK hFK s hs
    obtain ⟨ha, _⟩ := getFullSchema_ok_parts db exclude s hs
    obtain ⟨t', hpt⟩ := assembleTables_ok_forall db _ s.Tables ha t ht
    have hok := processTable_ok_forall t _ _ t' hpt c hc
    simp [constraintOK, hPK, hFK] at hok

/-- Witness for C5 at a CHECK constraint. -/
theorem unknown_constraint_kind_witness :
    classifyConstraints "t" ([] ++ checkConstraint :: [])
      = .error (.unknownConstraint "CHECK") :=
  (unknown_constraint_kind dbUsers [] "t").1 [] [] checkConstraint ([], [])
    rfl (by decide) (by decide)

/-- Counterexample to C9 as stated: the orders table of dbBadFK has no
PRIMARY KEY constraint, yet getFullSchema fails with the validation error
for its malformed foreign key instead of succeeding. -/
theorem no_primary_key_counterexample :
    ("orders", "") ∈ dbBadFK.tableRows ∧
    (∀ c ∈ dbBadFK.constraints "orders", c.ConstraintType ≠ "PRIMARY KEY") ∧
    getFullSchema dbBadFK [] = .error (.validation "orders_fk") :=
  ⟨by decide, by decide, rfl⟩

/-- Claim C9 (amended): on any successful run, a table whose constraint
list contains no PRIMARY KEY constraint is produced with empty KeyColumns
and all of its fetched columns, in ordinal order, in Columns; and a table
whose constraints contain no PRIMARY KEY constraint and all pass the
classifier checks is assembled without error in exactly that shape. -/
theorem no_primary_key_empty_keys (db : DB) (exclude : List String) :
    (∀ s, getFullSchema db exclude = .ok s → ∀ t ∈ s.Tables,
       (∀ c ∈ db.constraints t.Name, c.ConstraintType ≠ "PRIMARY KEY") →
       t.KeyColumns = [] ∧ t.Columns = getColumns db t.Name) ∧
    (∀ (table : Table) (cols : List ColumnDefinition)
       (constraints : List ConstraintDefinition),
       (∀ c ∈ constraints, c.ConstraintType ≠ "PRIMARY KEY" ∧
          constraintOK table.Name c = true) →
       processTable table cols constraints = .ok { table with
         KeyColumns := [], Columns := cols,
         ForeignKeys := constraints.filterMap fkDefOf }) := by
  constructor
  · intro s hs t ht hnopk
    obtain ⟨ha, _⟩ := getFullSchema_ok_parts db exclude s hs
    obtain ⟨t0, _, hpt⟩ := assembleTables_ok_mem_rev db _ s.Tables ha t ht
    have heq := processTable_ok_eq t0 _ _ t hpt
    subst heq
    have hpk : pkNames (db.constraints t0.Name) = [] := pkNames_eq_nil _ hnopk
    constructor
    · simp [hpk]
    · simp [hpk]
  · intro table cols constraints h
    have h2 : ∀ c ∈ constraints, constraintOK table.Name c = true := fun c hc => (h c hc).2
    have hpk : pkNames constraints = [] := pkNames_eq_nil _ (fun c hc => (h c hc).1)
    rw [processTable_all_ok table cols constraints h2]
    simp [hpk]

/-- Witness for C9 (amended) at the dbRefExcluded catalog: orders has no
primary key constraint and is assembled with empty KeyColumns and all of
its columns. -/
theorem no_primary_key_empty_keys_witness :
    refTable.KeyColumns = [] ∧ refTable.Columns = getColumns dbRefExcluded refTable.Name :=
  (no_primary_key_empty_keys dbRefExcluded ["logs"]).1 refSchema rfl refTable
    (by decide) (by decide)

/-- Claim C10: the assembler never checks a foreign key's referenced
table against the assembled tables: with logs excluded, getFullSchema
succeeds and the orders table carries a ForeignKeyDefinition whose
RefTable (logs) names no table of the returned Schema. -/
theorem fk_reftable_unchecked :
    getFullSchema dbRefExcluded ["logs"] = .ok refSchema ∧
    ("logs", "") ∈ dbRefExcluded.tableRows ∧
    ("logs" : String) ∈ (["logs"] : List String) ∧
    ∃ t ∈ refSchema.Tables, ∃ fk ∈ t.ForeignKeys,
      ∀ t0 ∈ refSchema.Tables, t0.Name ≠ fk.RefTable :=
  ⟨rfl, by decide, by decide, by decide⟩

end Pgdoc
